import Mathlib

/-!
Shallow embedding of the zircon toolchain manager core, together with
theorems settling the frozen claims about it.

The embedding covers three areas of the source:
  * the toolchain registry over the filesystem (src/toolchains.rs,
    src/paths.rs, and the switch / ImportCmd / PruneCmd dispatchers in
    src/cmds/toolchain_cmds.rs);
  * archive extraction (the entry loop of InstallCmd::dispatch in
    src/cmds/install_cmds.rs, and extract_zip in src/cmds/toolchain_cmds.rs);
  * git reference resolution (src/git_utils.rs) and the version naming in
    BuildCmd::dispatch (src/cmds/build_cmds.rs).

Filesystem and process I/O is made explicit: the registry functions take a
`FsState` value describing the on-disk layout and return the new state, and
operations that perform I/O in the source return the same `Except` shape as
the corresponding Rust `Result`.
-/

namespace Zircon

/-! ### Registry filesystem model

A `ToolchainDir` records the structure of one installed toolchain directory
that the validators inspect: whether it has a `bin/` subdirectory and
whether it has an `include/` subdirectory. -/

/-- Structure of one toolchain directory, as inspected by
`validate_toolchain_structure` (bin/ presence is fatal, include/ presence is
only a warning). -/
structure ToolchainDir where
  hasBinDir : Bool
  hasInclude : Bool
deriving DecidableEq

/-- State of the zircon root relevant to the registry: whether the
toolchains root directory exists, its subdirectories (name and structure;
these model the real directories, excluding the `current` symlink which is
tracked separately), the target name of the `current` symlink if that link
is present, and the set of directory names whose recursive removal would
fail with an I/O error (modelling that `fs::remove_dir_all` is fallible,
for example on permission errors). -/
structure FsState where
  rootExists : Bool
  toolchains : List (String × ToolchainDir)
  currentLink : Option String
  undeletable : List String
deriving DecidableEq

/-- Entry of the listing produced by `list_toolchains`
(struct `ToolchainInfo` in src/toolchains.rs). -/
structure ToolchainInfo where
  name : String
  is_current : Bool
deriving DecidableEq

/-- Errors surfaced by the registry operations.  The source uses boxed
string errors; we name the distinct error sites. -/
inductive ToolchainError where
  | notFound (version : String)
  | cannotDeleteActive (version : String)
  | ioError (version : String)
  | alreadyExists (version : String)
  | invalidStructure
deriving DecidableEq

/-- Decidable equality for call results, used to evaluate the model on the
concrete inputs of witnesses and counterexamples. -/
instance instDecidableEqExcept {ε : Type} {α : Type} [DecidableEq ε] [DecidableEq α] :
    DecidableEq (Except ε α) := fun a b =>
  match a, b with
  | .ok x, .ok y =>
    if h : x = y then .isTrue (by rw [h]) else .isFalse (by simp [h])
  | .ok _, .error _ => .isFalse (by simp)
  | .error _, .ok _ => .isFalse (by simp)
  | .error x, .error y =>
    if h : x = y then .isTrue (by rw [h]) else .isFalse (by simp [h])

/-- Lexicographic character comparison on code points, the order of the
Rust string comparison `a.name.cmp(&b.name)` used by the listing sort (on
the ASCII names involved, byte order and code-point order coincide). -/
def chars_le : List Char → List Char → Bool
  | [], _ => true
  | _ :: _, [] => false
  | c :: cs, d :: ds =>
    if c.toNat < d.toNat then true
    else if d.toNat < c.toNat then false
    else chars_le cs ds

/-- String comparison used by the listing sort. -/
def str_le (a b : String) : Bool := chars_le a.data b.data

/-- Model of `toolchain_exists` in src/toolchains.rs: presence check of the
directory `toolchains/<version>`. -/
def toolchain_exists (s : FsState) (version : String) : Bool :=
  (s.toolchains.lookup version).isSome

/-- Model of `current_link.exists()`: `Path::exists` follows symlinks, so
the check is true exactly when the link is present and its target directory
exists.  All code paths create the link pointing at `toolchains/<name>`, so
the target is identified with a toolchain name. -/
def current_link_exists (s : FsState) : Bool :=
  match s.currentLink with
  | some target => (s.toolchains.lookup target).isSome
  | none => false

/-- Model of `get_current_toolchain` in src/toolchains.rs: `None` when the
`current` link is absent (or dangling, since `exists()` follows the link),
otherwise the file name of the link target. -/
def get_current_toolchain (s : FsState) : Option String :=
  if current_link_exists s then s.currentLink else none

/-- Insertion step of the name sort used by `list_toolchains`
(`toolchains.sort_by(|a, b| a.name.cmp(&b.name))`). -/
def insert_by_name (x : ToolchainInfo) : List ToolchainInfo → List ToolchainInfo
  | [] => [x]
  | y :: ys => if str_le x.name y.name then x :: y :: ys else y :: insert_by_name x ys

/-- Name sort used by `list_toolchains`.  The Rust sort is a stable
comparison sort by name; insertion sort realizes the same specification. -/
def sort_by_name (l : List ToolchainInfo) : List ToolchainInfo :=
  l.foldr insert_by_name []

/-- Model of `list_toolchains` in src/toolchains.rs: empty when the
toolchains root does not exist; otherwise the subdirectories other than the
`current` link entry, each flagged by comparison with the resolved link
target, sorted by name. -/
def list_toolchains (s : FsState) : List ToolchainInfo :=
  if s.rootExists then
    let current_version : Option String :=
      if current_link_exists s then s.currentLink else none
    sort_by_name ((s.toolchains.filter (fun e => e.1 != "current")).map
      (fun e => ⟨e.1, current_version == some e.1⟩))
  else []

/-- Model of `delete_toolchain` in src/toolchains.rs.  The checks happen in
source order: directory presence first, then the current-toolchain guard,
then the recursive removal (which can fail, leaving the directory; the
error paths return before any mutation).  The pair returns the call result
together with the filesystem state after the call. -/
def delete_toolchain (s : FsState) (version : String) :
    Except ToolchainError Unit × FsState :=
  if ¬ toolchain_exists s version then
    (.error (.notFound version), s)
  else if get_current_toolchain s = some version then
    (.error (.cannotDeleteActive version), s)
  else if s.undeletable.contains version then
    (.error (.ioError version), s)
  else
    (.ok (), { s with toolchains := s.toolchains.filter (fun e => e.1 != version) })

/-- Model of `get_prunable_toolchains` in src/toolchains.rs: the listed
toolchains whose name differs from the current one. -/
def get_prunable_toolchains (s : FsState) : List String :=
  let current := get_current_toolchain s
  ((list_toolchains s).filter (fun tc => some tc.name != current)).map (·.name)

/-- Deletion loop of `PruneCmd::dispatch` in src/cmds/toolchain_cmds.rs:
`for name in &to_prune { toolchains::delete_toolchain(name)?; }` — the `?`
propagates the first deletion error out of the whole command. -/
def prune_delete_loop (s : FsState) (names : List String) :
    Except ToolchainError Unit × FsState :=
  match names with
  | [] => (.ok (), s)
  | n :: rest =>
    match delete_toolchain s n with
    | (.ok _, s1) => prune_delete_loop s1 rest
    | (.error e, s1) => (.error e, s1)

/-- Model of `PruneCmd::dispatch` on the confirmed path (the `yes` flag set,
so the stdin prompt is skipped): compute the prunable candidates and run the
deletion loop.  An empty candidate list returns early with success, which
coincides with the loop on the empty list. -/
def prune_cmd (s : FsState) : Except ToolchainError Unit × FsState :=
  prune_delete_loop s (get_prunable_toolchains s)

/-- Model of `SwitchCmd::dispatch` in src/cmds/toolchain_cmds.rs: fail when
the toolchain directory is absent, otherwise repoint the `current` link via
`paths::create_link` (which replaces any previous link).  No structural
check is performed on this path. -/
def switch_cmd (s : FsState) (version : String) :
    Except ToolchainError Unit × FsState :=
  if ¬ toolchain_exists s version then
    (.error (.notFound version), s)
  else
    (.ok (), { s with currentLink := some version })

/-- Model of `validate_toolchain_structure` in src/cmds/toolchain_cmds.rs:
missing `bin/` is a fatal error; a missing `include/` only prints a
warning. -/
def validate_toolchain_structure (d : ToolchainDir) : Except ToolchainError Unit :=
  if ¬ d.hasBinDir then .error .invalidStructure else .ok ()

/-- Model of `ImportCmd::dispatch` in src/cmds/toolchain_cmds.rs.  The
archive reading is I/O, abstracted by three parameters: `base` is the
version base name computed from the archive filename
(`extract_version_from_filename`), `hash` the 8-character digest prefix
(`compute_archive_hash`), and `content` the directory structure produced by
a successful extraction.  The registry effects mirror the source: the
duplicate-name check, `ensure_directories`, directory creation plus
extraction, structural validation (a failure leaves the extracted directory
in place), and finally — unconditionally on success — repointing the
`current` link (the source comment reads `Always set as current`). -/
def import_cmd (s : FsState) (base hash : String) (content : ToolchainDir) :
    Except ToolchainError Unit × FsState :=
  let version := base ++ "-" ++ hash
  if toolchain_exists s version then
    (.error (.alreadyExists version), s)
  else
    let s1 : FsState :=
      { s with rootExists := true, toolchains := s.toolchains ++ [(version, content)] }
    match validate_toolchain_structure content with
    | .error e => (.error e, s1)
    | .ok _ => (.ok (), { s1 with currentLink := some version })

/-! ### Archive extraction model

Stored entry paths are modelled as lists of path components, following
`std::path::Component`: normal names, the parent-directory component `..`,
and the root component of an absolute path.  The `CurDir` and Windows
prefix components play no role in the claims and are omitted. -/

/-- Component of a stored archive entry path. -/
inductive PathComp where
  | normal (s : String)
  | parentDir
  | rootDir
deriving DecidableEq

/-- One archive entry: its stored path and whether it is a directory
entry. -/
structure ArchiveEntry where
  path : List PathComp
  isDir : Bool
deriving DecidableEq

/-- Errors of the security checks in the extraction loop of
`InstallCmd::dispatch` (the two fatal unsafe-entry rejections). -/
inductive ArchiveError where
  | unsafeParentDir (p : List PathComp)
  | absolutePath (p : List PathComp)
deriving DecidableEq

/-- Model of `Path::is_absolute` on a component list: the path starts with
the root component. -/
def is_absolute : List PathComp → Bool
  | .rootDir :: _ => true
  | _ => false

/-- The component predicate of the traversal check
`matches!(c, Component::ParentDir)`. -/
def is_parent_comp : PathComp → Bool
  | .parentDir => true
  | _ => false

/-- Effective relative path at which `unpack_in` materializes an entry
below the destination: root components are skipped and normal components
are joined (the parent component cannot occur on this code path, the
explicit checks having already rejected it). -/
def unpack_components (p : List PathComp) : List PathComp :=
  p.filter (fun c => match c with | .normal _ => true | _ => false)

/-- Extraction loop of `InstallCmd::dispatch` in src/cmds/install_cmds.rs:
for each entry, reject a stored path containing a parent component with a
fatal error, then reject an absolute stored path with a fatal error, then
unpack the entry below the destination.  The result is the list of
effective relative paths written below the destination directory. -/
def install_extract_entries (entries : List ArchiveEntry) :
    Except ArchiveError (List (List PathComp)) :=
  match entries with
  | [] => .ok []
  | e :: rest =>
    if e.path.any is_parent_comp then .error (.unsafeParentDir e.path)
    else if is_absolute e.path then .error (.absolutePath e.path)
    else (install_extract_entries rest).map (unpack_components e.path :: ·)

/-- Depth step of the containment check performed by the zip library
function `enclosed_name`: normal components descend, a parent component
ascends and is unsafe at depth zero, a root component is unsafe
outright. -/
def zip_depth_step : Option Nat → PathComp → Option Nat
  | none, _ => none
  | some _, .rootDir => none
  | some d, .parentDir => if d = 0 then none else some (d - 1)
  | some d, .normal _ => some (d + 1)

/-- True when resolving the stored path below the destination never leaves
the destination directory. -/
def stays_within (p : List PathComp) : Bool :=
  (p.foldl zip_depth_step (some 0)).isSome

/-- Model of `ZipFile::enclosed_name` from the zip library, as called by
`extract_zip`: returns the stored path when it is safe to join below the
destination and `none` when the path is absolute or ascends above the
destination at any point. -/
def enclosed_name (p : List PathComp) : Option (List PathComp) :=
  if stays_within p then some p else none

/-- Model of `extract_zip` in src/cmds/toolchain_cmds.rs: entries whose
stored name has no safe enclosed form are skipped with `continue`; the
others are written below the destination (directory entries created, file
entries written after creating parents).  The result is the list of
relative paths written; no unsafe-entry error exists on this path (only
I/O failures, outside this model, can fail it). -/
def extract_zip (entries : List ArchiveEntry) : List (List PathComp) :=
  match entries with
  | [] => []
  | e :: rest =>
    match enclosed_name e.path with
    | none => extract_zip rest
    | some p => p :: extract_zip rest

/-! ### Git reference model

The git2 repository is modelled by its observable reference structure:
the set of references (found by exact full name, each peeling to a commit
when it points at one), the generic short-name resolution table used by
`resolve_reference_from_short_name`, and the set of object ids present in
the object database. -/

/-- One git reference: its full name and the commit it peels to, when it
peels to one. -/
structure GitRef where
  name : String
  peelsTo : Option String
deriving DecidableEq

/-- Observable reference structure of a repository mirror. -/
structure Repo where
  refs : List GitRef
  shortNames : List (String × String)
  commits : List String
deriving DecidableEq

/-- Model of `Repository::find_reference`: exact lookup by full reference
name. -/
def find_reference (repo : Repo) (n : String) : Option GitRef :=
  repo.refs.find? (fun r => r.name == n)

/-- Model of `Repository::resolve_reference_from_short_name`: the table
maps a short name to the full name of the reference git resolves it to. -/
def resolve_reference_from_short_name (repo : Repo) (n : String) : Option GitRef :=
  (repo.shortNames.lookup n).bind (find_reference repo)

/-- Hexadecimal digit test used by the object-id parser. -/
def is_hex_digit (c : Char) : Bool :=
  c.isDigit || ('a' ≤ c && c ≤ 'f') || ('A' ≤ c && c ≤ 'F')

/-- Model of `git2::Oid::from_str`: accepts a nonempty hex string of at
most 40 characters and zero-pads it to the full 40-character id. -/
def oid_from_str (s : String) : Option String :=
  if s.data.length = 0 || 40 < s.data.length || ¬ s.data.all is_hex_digit then none
  else some (s ++ String.mk (List.replicate (40 - s.data.length) '0'))

/-- State of HEAD after a checkout: attached to a reference, or detached at
an object id. -/
inductive Head where
  | ref (name : String)
  | detached (oid : String)
deriving DecidableEq

/-- Errors of the modelled git operations. -/
inductive GitError where
  | peelFailed
  | objectNotFound (oid : String)
  | referenceNotFound (name : String)
  | headMissing
deriving DecidableEq

/-- Model of `checkout_ref` in src/git_utils.rs.  Resolution order exactly
as in the source: the remote-tracking reference `refs/remotes/origin/<name>`
first, then generic short-name resolution, then the literal object-id
parse; a failed parse produces the could-not-find-reference error.  On
success the working tree holds the returned commit and HEAD is attached to
the resolved reference, or detached at the object id for a bare commit
(`checkout_tree` itself is assumed to succeed; its I/O failures are outside
the model). -/
def checkout_ref (repo : Repo) (ref_name : String) :
    Except GitError (String × Head) :=
  match find_reference repo ("refs/remotes/origin/" ++ ref_name) with
  | some r =>
    match r.peelsTo with
    | some c => .ok (c, .ref r.name)
    | none => .error .peelFailed
  | none =>
    match resolve_reference_from_short_name repo ref_name with
    | some r =>
      match r.peelsTo with
      | some c => .ok (c, .ref r.name)
      | none => .error .peelFailed
    | none =>
      match oid_from_str ref_name with
      | some oid =>
        if repo.commits.contains oid then .ok (oid, .detached oid)
        else .error (.objectNotFound oid)
      | none => .error (.referenceNotFound ref_name)

/-- Commit a HEAD state peels to: the commit of the attached reference, or
the detached object id. -/
def head_peel (repo : Repo) (h : Head) : Except GitError String :=
  match h with
  | .ref n =>
    match find_reference repo n with
    | some r =>
      match r.peelsTo with
      | some c => .ok c
      | none => .error .peelFailed
    | none => .error .headMissing
  | .detached oid => .ok oid

/-- Fixed-length prefix of a string, by characters.  Models the Rust byte
slice `&s[..n]` on the ASCII hex strings it is applied to. -/
def take_chars (s : String) (n : Nat) : String :=
  String.mk (s.data.take n)

/-- Model of `get_current_commit_short` in src/git_utils.rs: the first 8
characters of the full hex id of the commit HEAD peels to. -/
def get_current_commit_short (repo : Repo) (h : Head) : Except GitError String :=
  (head_peel repo h).map (fun c => take_chars c 8)

/-- Reference classification (enum `RefType` in src/git_utils.rs). -/
inductive RefType where
  | tag (s : String)
  | branch (s : String)
  | commit (s : String)
deriving DecidableEq

/-- Model of `determine_ref_type` in src/git_utils.rs, probing in source
order: a tag reference by exact name; a local or remote-tracking branch by
that name; an object-id parse that resolves to an existing commit (the
name truncated to at most 8 characters); generic short-name resolution
classified by namespace prefix; and the final permissive default, a
branch.  A short-name resolution whose namespace matches neither prefix
falls through to the same default. -/
def determine_ref_type (repo : Repo) (ref_name : String) : RefType :=
  if (find_reference repo ("refs/tags/" ++ ref_name)).isSome then
    .tag ref_name
  else if (find_reference repo ("refs/heads/" ++ ref_name)).isSome
      || (find_reference repo ("refs/remotes/origin/" ++ ref_name)).isSome then
    .branch ref_name
  else if (oid_from_str ref_name).elim false (fun oid => repo.commits.contains oid) then
    .commit (take_chars ref_name 8)
  else
    match resolve_reference_from_short_name repo ref_name with
    | some r =>
      if r.name.startsWith "refs/tags/" then .tag ref_name
      else if r.name.startsWith "refs/heads/" || r.name.startsWith "refs/remotes/" then
        .branch ref_name
      else .branch ref_name
    | none => .branch ref_name

/-- Model of the Rust single-character replacement
`branch.replace('/', "-")` used for branch version names. -/
def sanitize_branch (b : String) : String :=
  String.mk (b.data.map (fun c => if c = '/' then '-' else c))

/-- Version naming portion of `BuildCmd::dispatch` in
src/cmds/build_cmds.rs: check out the requested reference, read the short
commit id of HEAD, classify the reference, and derive the toolchain
version name — the tag text verbatim for a tag, sanitized branch name
`@` short commit for a branch, and the bare short id for a commit. -/
def build_version (repo : Repo) (reference : String) : Except GitError String := do
  let co ← checkout_ref repo reference
  let commit_sha ← get_current_commit_short repo co.2
  let ref_type := determine_ref_type repo reference
  pure (match ref_type with
    | .tag t => t
    | .branch b => sanitize_branch b ++ "@" ++ commit_sha
    | .commit c => c)

/-! ### Concrete states used by witnesses and counterexamples -/

/-- Toolchain directory with the expected structure. -/
def dirOk : ToolchainDir := ⟨true, true⟩

/-- Toolchain directory missing the bin subdirectory. -/
def dirNoBin : ToolchainDir := ⟨false, false⟩

/-- Fresh machine: no zircon root at all. -/
def sEmpty : FsState := ⟨false, [], none, []⟩

/-- Two toolchains with the first one active. -/
def sDeleteDemo : FsState := ⟨true, [("alpha", dirOk), ("beta", dirOk)], some "alpha", []⟩

/-- One structurally valid and one structurally invalid toolchain, the
valid one active. -/
def sSwitchDemo : FsState := ⟨true, [("good", dirOk), ("nobin", dirNoBin)], some "good", []⟩

/-- Three toolchains with the last one (in name order) active, and the
first prune candidate undeletable. -/
def sPruneDemo : FsState :=
  ⟨true, [("aaa", dirOk), ("bbb", dirOk), ("ccc", dirOk)], some "ccc", ["aaa"]⟩

/-- Archive entry whose stored path traverses out of the destination. -/
def evilEntry : ArchiveEntry :=
  ⟨[.parentDir, .parentDir, .normal "etc", .normal "passwd"], false⟩

/-- Well-behaved archive entry. -/
def goodEntry : ArchiveEntry := ⟨[.normal "bin", .normal "zrc"], false⟩

/-- Full-length object id (40 hex characters). -/
def oid40a : String := "aaaaaaaaaaaaaaaaaaaaaaaaaaaaaaaaaaaaaaaa"

/-- Full-length object id (40 hex characters). -/
def oid40b : String := "bbbbbbbbbbbbbbbbbbbbbbbbbbbbbbbbbbbbbbbb"

/-- Full-length object id (40 hex characters). -/
def oid40c : String := "cccccccccccccccccccccccccccccccccccccccc"

/-- Demo mirror: the branch `main` exists both as a remote-tracking
reference (at `oid40a`, the freshly fetched commit) and as a stale local
branch (at `oid40b`); short-name resolution prefers the local branch.  A
tag `v1.0` and a tag whose name `abcdef12` also parses as a hex object id
are present. -/
def repoDemo : Repo :=
  ⟨[⟨"refs/remotes/origin/main", some oid40a⟩,
    ⟨"refs/heads/main", some oid40b⟩,
    ⟨"refs/tags/v1.0", some oid40c⟩,
    ⟨"refs/tags/abcdef12", some oid40c⟩],
   [("main", "refs/heads/main"), ("v1.0", "refs/tags/v1.0")],
   [oid40a, oid40b, oid40c]⟩

/-! ### Helper lemmas -/

/-- Unfolding of a successful current-toolchain read: the link is present
and its target directory exists. -/
theorem get_current_eq_some (s : FsState) (c : String)
    (h : get_current_toolchain s = some c) :
    s.currentLink = some c ∧ (s.toolchains.lookup c).isSome = true := by
  unfold get_current_toolchain at h
  split at h
  · next hex =>
    refine ⟨h, ?_⟩
    unfold current_link_exists at hex
    rw [h] at hex
    simpa using hex
  · exact absurd h (by simp)

/-! ### Claim theorems -/

/-- Claim C10: on an empty registry, enumeration succeeds rather than
erroring: when the toolchains root directory does not exist the listing is
empty (not an error), and when the current link is absent the current
toolchain reads back as `none` (not an error). -/
theorem empty_registry_enumeration_ok (s : FsState) :
    (s.rootExists = false → list_toolchains s = []) ∧
    (s.currentLink = none → get_current_toolchain s = none) := by
  constructor
  · intro h
    unfold list_toolchains
    simp [h]
  · intro h
    unfold get_current_toolchain current_link_exists
    simp [h]

/-- Witness for C10 at the fresh-machine state. -/
theorem empty_registry_enumeration_ok_witness :
    list_toolchains sEmpty = [] ∧ get_current_toolchain sEmpty = none :=
  ⟨(empty_registry_enumeration_ok sEmpty).1 (by decide),
   (empty_registry_enumeration_ok sEmpty).2 (by decide)⟩

/-- Claim C1: deleting the toolchain the current link resolves to fails
with the cannot-delete-active error, and the filesystem state — every
toolchain directory and the current link — is returned unchanged. -/
theorem delete_current_toolchain_fails_unchanged (s : FsState) (v : String)
    (h : get_current_toolchain s = some v) :
    delete_toolchain s v = (.error (.cannotDeleteActive v), s) := by
  obtain ⟨hlink, hlookup⟩ := get_current_eq_some s v h
  have hex : toolchain_exists s v = true := hlookup
  unfold delete_toolchain
  simp [hex, h]

/-- Witness for C1 at a concrete two-toolchain state. -/
theorem delete_current_toolchain_fails_unchanged_witness :
    get_current_toolchain sDeleteDemo = some "alpha" ∧
    delete_toolchain sDeleteDemo "alpha" =
      (.error (.cannotDeleteActive "alpha"), sDeleteDemo) :=
  ⟨by decide,
   delete_current_toolchain_fails_unchanged sDeleteDemo "alpha" (by decide)⟩

/-- Association lookup is unaffected by filtering out a different key. -/
theorem lookup_filter_ne (l : List (String × ToolchainDir)) (c v : String)
    (h : c ≠ v) :
    (l.filter (fun e => e.1 != v)).lookup c = l.lookup c := by
  induction l with
  | nil => rfl
  | cons e rest ih =>
    by_cases he : e.1 = v
    · have hkeep : (e.1 != v) = false := by simp [he]
      have hc : (c == e.1) = false := by simp [he, h]
      simp [List.filter, hkeep, List.lookup, hc, ih]
    · have hkeep : (e.1 != v) = true := by simp [he]
      by_cases hce : c = e.1
      · simp [List.filter, hkeep, List.lookup, hce]
      · have hc : (c == e.1) = false := by simp [hce]
        simp [List.filter, hkeep, List.lookup, hc, ih]

/-- Error paths of the delete operation leave the state unchanged. -/
theorem delete_error_state (s : FsState) (v : String) (e : ToolchainError)
    (h : (delete_toolchain s v).1 = .error e) :
    (delete_toolchain s v).2 = s := by
  by_cases h1 : toolchain_exists s v = true
  · by_cases h2 : get_current_toolchain s = some v
    · simp [delete_toolchain, h1, h2]
    · by_cases h3 : v ∈ s.undeletable
      · simp [delete_toolchain, h1, h2, h3]
      · exact absurd h (by simp [delete_toolchain, h1, h2, h3])
  · simp [delete_toolchain, h1]

/-- Deleting any toolchain preserves the current toolchain: the guard stops
deletion of the current one, and removing a different directory touches
neither the link nor its target. -/
theorem delete_preserves_current (s : FsState) (c v : String)
    (hc : get_current_toolchain s = some c) :
    get_current_toolchain ((delete_toolchain s v).2) = some c := by
  obtain ⟨hlink, hlookup⟩ := get_current_eq_some s c hc
  by_cases h1 : toolchain_exists s v = true
  · by_cases h2 : get_current_toolchain s = some v
    · simpa [delete_toolchain, h1, h2] using hc
    · by_cases h3 : v ∈ s.undeletable
      · simpa [delete_toolchain, h1, h2, h3] using hc
      · have hvc : c ≠ v := by
          intro hcv
          exact h2 (hcv ▸ hc)
        have hdel : delete_toolchain s v =
            (.ok (), { s with toolchains := s.toolchains.filter (fun e => e.1 != v) }) := by
          simp [delete_toolchain, h1, h2, h3]
        rw [hdel]
        unfold get_current_toolchain current_link_exists
        simp [hlink, lookup_filter_ne _ _ _ hvc, hlookup]
  · simpa [delete_toolchain, h1] using hc

/-- The prune deletion loop preserves the current toolchain at every
step. -/
theorem prune_loop_preserves_current (names : List String) (s : FsState)
    (c : String) (hc : get_current_toolchain s = some c) :
    get_current_toolchain ((prune_delete_loop s names).2) = some c := by
  induction names generalizing s with
  | nil => simpa [prune_delete_loop] using hc
  | cons n rest ih =>
    have hpres := delete_preserves_current s c n hc
    unfold prune_delete_loop
    cases hdel : delete_toolchain s n with
    | mk res s1 =>
      rw [hdel] at hpres
      cases res with
      | ok u => exact ih s1 hpres
      | error e => simpa using hpres

/-- Membership in the insertion step of the name sort. -/
theorem mem_insert_by_name (x a : ToolchainInfo) (l : List ToolchainInfo) :
    a ∈ insert_by_name x l ↔ a = x ∨ a ∈ l := by
  induction l with
  | nil => simp [insert_by_name]
  | cons y ys ih =>
    unfold insert_by_name
    by_cases hxy : str_le x.name y.name = true
    · simp [hxy]
    · rw [Bool.not_eq_true] at hxy
      simp [hxy, ih]
      tauto

/-- The name sort is membership-preserving. -/
theorem mem_sort_by_name (a : ToolchainInfo) (l : List ToolchainInfo) :
    a ∈ sort_by_name l ↔ a ∈ l := by
  induction l with
  | nil => simp [sort_by_name]
  | cons y ys ih =>
    unfold sort_by_name at *
    simp only [List.foldr_cons, mem_insert_by_name, ih, List.mem_cons]

/-- Characterization of the prunable names: exactly the listed toolchains
other than the current one. -/
theorem prunable_iff (s : FsState) (c : String)
    (hc : get_current_toolchain s = some c) (n : String) :
    n ∈ get_prunable_toolchains s ↔
      ((∃ tc ∈ list_toolchains s, tc.name = n) ∧ n ≠ c) := by
  unfold get_prunable_toolchains
  rw [hc]
  simp only [List.mem_map, List.mem_filter]
  constructor
  · rintro ⟨tc, ⟨htc, hne⟩, rfl⟩
    refine ⟨⟨tc, htc, rfl⟩, ?_⟩
    simpa using hne
  · rintro ⟨⟨tc, htc, rfl⟩, hne⟩
    exact ⟨tc, ⟨htc, by simpa using hne⟩, rfl⟩

/-- Claim C5: with a current toolchain present, the prunable set is exactly
the listing minus the current toolchain, and running the prune command
never deletes the current toolchain — its directory still exists and the
link still resolves to it afterwards, wherever it sorts among the
candidates. -/
theorem prunable_complement_and_prune_keeps_current (s : FsState) (c : String)
    (hc : get_current_toolchain s = some c) :
    (∀ n, n ∈ get_prunable_toolchains s ↔
        ((∃ tc ∈ list_toolchains s, tc.name = n) ∧ n ≠ c)) ∧
    get_current_toolchain ((prune_cmd s).2) = some c ∧
    toolchain_exists ((prune_cmd s).2) c = true := by
  have hkeep := prune_loop_preserves_current (get_prunable_toolchains s) s c hc
  refine ⟨fun n => prunable_iff s c hc n, hkeep, ?_⟩
  exact (get_current_eq_some _ c hkeep).2

/-- Witness for C5: the current toolchain sorts last among three, and prune
still keeps it (the prunable set here is the other two names). -/
theorem prunable_complement_and_prune_keeps_current_witness :
    get_prunable_toolchains sPruneDemo = ["aaa", "bbb"] ∧
    get_current_toolchain ((prune_cmd sPruneDemo).2) = some "ccc" ∧
    toolchain_exists ((prune_cmd sPruneDemo).2) "ccc" = true :=
  ⟨by decide,
   (prunable_complement_and_prune_keeps_current sPruneDemo "ccc" (by decide)).2.1,
   (prunable_complement_and_prune_keeps_current sPruneDemo "ccc" (by decide)).2.2⟩

/-- Counterexample for C6: in `sPruneDemo` the prunable candidates are
`aaa` and `bbb`; deleting `aaa` fails, and the loop aborts with that error
without attempting `bbb`, which is still installed afterwards (had its
deletion been attempted it would have succeeded, as the direct call
shows). -/
theorem prune_aborts_on_first_failure_cex :
    get_prunable_toolchains sPruneDemo = ["aaa", "bbb"] ∧
    (prune_cmd sPruneDemo).1 = .error (.ioError "aaa") ∧
    toolchain_exists ((prune_cmd sPruneDemo).2) "bbb" = true ∧
    (delete_toolchain sPruneDemo "bbb").1 = .ok () := by decide

/-- Claim C6 as amended: the prune loop deletes candidates sequentially and
stops at the first failure — the failing error is propagated out of the
whole command and the state at that point is returned, so the remaining
candidates are not attempted. -/
theorem prune_loop_stops_at_first_error (s : FsState) (n : String)
    (rest : List String) (e : ToolchainError)
    (he : (delete_toolchain s n).1 = .error e) :
    prune_delete_loop s (n :: rest) = (.error e, s) := by
  have hs : (delete_toolchain s n).2 = s := delete_error_state s n e he
  unfold prune_delete_loop
  rcases hdel : delete_toolchain s n with ⟨res, s1⟩
  rw [hdel] at he hs
  simp only at he hs
  cases res with
  | ok u => exact absurd he (by simp)
  | error e2 =>
    simp only at he ⊢
    simp at he
    simp [he, hs]

/-- Witness for the amended C6 at the concrete prune state. -/
theorem prune_loop_stops_at_first_error_witness :
    prune_delete_loop sPruneDemo ["aaa", "bbb"] =
      (.error (.ioError "aaa"), sPruneDemo) :=
  prune_loop_stops_at_first_error sPruneDemo "aaa" ["bbb"]
    (.ioError "aaa") (by decide)

/-- Looking up a freshly appended key succeeds. -/
theorem lookup_append_singleton (l : List (String × ToolchainDir)) (k : String)
    (d : ToolchainDir) :
    ((l ++ [(k, d)]).lookup k).isSome = true := by
  induction l with
  | nil => simp [List.lookup]
  | cons e rest ih =>
    rcases e with ⟨k1, d1⟩
    by_cases he : k == k1
    · simp [List.lookup, he]
    · simp only [List.cons_append, List.lookup, he]
      exact ih

/-- Introduction rule for membership in the listing: any real subdirectory
not named `current` appears, flagged by the link comparison. -/
theorem list_toolchains_mem_intro (s : FsState) (nm : String) (d : ToolchainDir)
    (hroot : s.rootExists = true) (hmem : (nm, d) ∈ s.toolchains)
    (hnm : nm ≠ "current") :
    (⟨nm, (if current_link_exists s then s.currentLink else none) == some nm⟩ :
      ToolchainInfo) ∈ list_toolchains s := by
  unfold list_toolchains
  rw [if_pos hroot]
  rw [mem_sort_by_name, List.mem_map]
  exact ⟨(nm, d), List.mem_filter.mpr ⟨hmem, by simpa using hnm⟩, rfl⟩

/-- Counterexample for C3: switching to the structurally invalid toolchain
`nobin` succeeds, repointing the current link at a directory that fails
structural validation — the switch path checks only directory existence. -/
theorem switch_repoints_without_validation_cex :
    (switch_cmd sSwitchDemo "nobin").1 = .ok () ∧
    (switch_cmd sSwitchDemo "nobin").2.currentLink = some "nobin" ∧
    ((switch_cmd sSwitchDemo "nobin").2.toolchains.lookup "nobin") = some dirNoBin ∧
    validate_toolchain_structure dirNoBin = .error .invalidStructure := by decide

/-- Claim C3 as amended: the switch operation repoints the current link
after checking only that the toolchain directory exists, with no
structural validation, so the link may afterwards point at a directory
failing validation; the archive-import path, by contrast, repoints the
link only after structural validation has passed. -/
theorem switch_checks_existence_only_import_validates (s : FsState)
    (v base hash : String) (content : ToolchainDir) :
    (toolchain_exists s v = true →
      switch_cmd s v = (.ok (), { s with currentLink := some v })) ∧
    ((import_cmd s base hash content).1 = .ok () → content.hasBinDir = true) := by
  constructor
  · intro h
    simp [switch_cmd, h]
  · intro h
    by_cases hb : content.hasBinDir = true
    · exact hb
    · exfalso
      by_cases hex : toolchain_exists s (base ++ "-" ++ hash) = true
      · simp [import_cmd, hex] at h
      · simp [import_cmd, hex, validate_toolchain_structure, hb] at h

/-- Witness for the amended C3: switching to an existing structurally
valid toolchain, and a successful import implying a valid structure. -/
theorem switch_checks_existence_only_import_validates_witness :
    switch_cmd sSwitchDemo "good" =
      (.ok (), { sSwitchDemo with currentLink := some "good" }) ∧
    dirOk.hasBinDir = true :=
  ⟨(switch_checks_existence_only_import_validates sSwitchDemo "good" "zrc" "abcd1234"
      dirOk).1 (by decide),
   (switch_checks_existence_only_import_validates sEmpty "good" "zrc" "abcd1234"
      dirOk).2 (by decide)⟩

/-- Counterexample for C4: importing an archive into a fresh registry
succeeds and the listing entry for the imported toolchain immediately has
`is_current = true` — the import path unconditionally repoints the current
link, with no separate activation step. -/
theorem import_auto_activates_cex :
    (import_cmd sEmpty "zrc" "abcd1234" dirOk).1 = .ok () ∧
    list_toolchains ((import_cmd sEmpty "zrc" "abcd1234" dirOk).2) =
      [⟨"zrc-abcd1234", true⟩] := by decide

/-- Claim C4 as amended: immediately after a successful import of an
archive with base name `base` and content hash `hash`, the toolchain
`base-hash` exists, the current link resolves to it, and its listing entry
has `is_current = true`: the import activates the toolchain itself, so no
separate switch is needed. -/
theorem import_success_exists_and_current (s : FsState) (base hash : String)
    (content : ToolchainDir)
    (hok : (import_cmd s base hash content).1 = .ok ())
    (hname : base ++ "-" ++ hash ≠ "current") :
    toolchain_exists ((import_cmd s base hash content).2) (base ++ "-" ++ hash) = true ∧
    get_current_toolchain ((import_cmd s base hash content).2) =
      some (base ++ "-" ++ hash) ∧
    (⟨base ++ "-" ++ hash, true⟩ : ToolchainInfo) ∈
      list_toolchains ((import_cmd s base hash content).2) := by
  by_cases hex : toolchain_exists s (base ++ "-" ++ hash) = true
  · exact absurd hok (by simp [import_cmd, hex])
  · by_cases hb : content.hasBinDir = true
    · have hres : import_cmd s base hash content =
          (.ok (), ⟨true, s.toolchains ++ [(base ++ "-" ++ hash, content)],
            some (base ++ "-" ++ hash), s.undeletable⟩) := by
        simp [import_cmd, hex, validate_toolchain_structure, hb]
      rw [hres]
      have hlook := lookup_append_singleton s.toolchains (base ++ "-" ++ hash) content
      have hcl : current_link_exists ⟨true,
          s.toolchains ++ [(base ++ "-" ++ hash, content)],
          some (base ++ "-" ++ hash), s.undeletable⟩ = true := by
        unfold current_link_exists
        exact hlook
      refine ⟨hlook, ?_, ?_⟩
      · unfold get_current_toolchain
        rw [if_pos hcl]
      · have h3 := list_toolchains_mem_intro
          ⟨true, s.toolchains ++ [(base ++ "-" ++ hash, content)],
            some (base ++ "-" ++ hash), s.undeletable⟩
          (base ++ "-" ++ hash) content rfl
          (List.mem_append_right _ (List.mem_singleton.mpr rfl)) hname
        simpa [hcl] using h3
    · exact absurd hok (by simp [import_cmd, hex, validate_toolchain_structure, hb])

/-- Witness for the amended C4 at a fresh registry. -/
theorem import_success_exists_and_current_witness :
    toolchain_exists ((import_cmd sEmpty "zrc" "abcd1234" dirOk).2) "zrc-abcd1234" = true ∧
    get_current_toolchain ((import_cmd sEmpty "zrc" "abcd1234" dirOk).2) =
      some "zrc-abcd1234" ∧
    (⟨"zrc-abcd1234", true⟩ : ToolchainInfo) ∈
      list_toolchains ((import_cmd sEmpty "zrc" "abcd1234" dirOk).2) :=
  import_success_exists_and_current sEmpty "zrc" "abcd1234" dirOk
    (by decide) (by decide)

/-- Folding the depth check over normal components only never fails, from
any starting depth. -/
theorem foldl_zip_depth_normals (p : List PathComp) :
    ∀ d : Nat, ((unpack_components p).foldl zip_depth_step (some d)).isSome = true := by
  induction p with
  | nil =>
    intro d
    simp [unpack_components]
  | cons c rest ih =>
    intro d
    cases c with
    | normal nm => simpa [unpack_components, zip_depth_step] using ih (d + 1)
    | parentDir => simpa [unpack_components] using ih d
    | rootDir => simpa [unpack_components] using ih d

/-- The effective path of an unpacked entry stays below the
destination. -/
theorem stays_within_unpack (p : List PathComp) :
    stays_within (unpack_components p) = true :=
  foldl_zip_depth_normals p 0

/-- A successful install extraction writes exactly the effective paths of
its entries. -/
theorem install_extract_ok (entries : List ArchiveEntry) (ws : List (List PathComp))
    (h : install_extract_entries entries = .ok ws) :
    ws = entries.map (fun e => unpack_components e.path) := by
  induction entries generalizing ws with
  | nil =>
    unfold install_extract_entries at h
    simp only [List.map_nil]
    exact (Except.ok.injEq _ _ ▸ h.symm : _)
  | cons e rest ih =>
    unfold install_extract_entries at h
    by_cases h1 : e.path.any is_parent_comp = true
    · simp [h1] at h
    · by_cases h2 : is_absolute e.path = true
      · simp [h1, h2] at h
      · rw [if_neg h1, if_neg h2] at h
        cases hrest : install_extract_entries rest with
        | ok ws2 =>
          rw [hrest] at h
          simp only [Except.map, Except.ok.injEq] at h
          rw [← h, ih ws2 hrest, List.map_cons]
        | error err =>
          rw [hrest] at h
          simp [Except.map] at h

/-- Any entry whose stored path has a parent component or is absolute
forces the install extraction to fail. -/
theorem install_extract_unsafe_errors (entries : List ArchiveEntry)
    (e : ArchiveEntry) (hmem : e ∈ entries)
    (hbad : e.path.any is_parent_comp = true ∨ is_absolute e.path = true) :
    ∃ err, install_extract_entries entries = .error err := by
  induction entries with
  | nil => cases hmem
  | cons f rest ih =>
    by_cases h1 : f.path.any is_parent_comp = true
    · exact ⟨_, by unfold install_extract_entries; rw [if_pos h1]⟩
    · by_cases h2 : is_absolute f.path = true
      · exact ⟨_, by unfold install_extract_entries; rw [if_neg h1, if_pos h2]⟩
      · rcases List.mem_cons.mp hmem with rfl | hmem2
        · rcases hbad with hb | hb
          · exact absurd hb h1
          · exact absurd hb h2
        · obtain ⟨err, herr⟩ := ih hmem2
          refine ⟨err, ?_⟩
          unfold install_extract_entries
          rw [if_neg h1, if_neg h2, herr]
          simp [Except.map]

/-- Every path written by the zip extraction stays below the
destination. -/
theorem extract_zip_writes_safe (entries : List ArchiveEntry) :
    ∀ w ∈ extract_zip entries, stays_within w = true := by
  induction entries with
  | nil =>
    intro w hw
    cases hw
  | cons e rest ih =>
    intro w hw
    unfold extract_zip at hw
    cases henc : enclosed_name e.path with
    | none =>
      rw [henc] at hw
      exact ih w hw
    | some p =>
      rw [henc] at hw
      rcases List.mem_cons.mp hw with rfl | hw2
      · unfold enclosed_name at henc
        by_cases hs : stays_within e.path = true
        · rw [if_pos hs] at henc
          cases henc
          exact hs
        · rw [if_neg hs] at henc
          cases henc
      · exact ih w hw2

/-- Counterexample for C2: the zip branch of the archive-import path
silently skips an entry whose stored path is `../../etc/passwd` — the
extraction returns successfully having written nothing, rather than
rejecting the archive with a fatal unsafe-entry error (which is what the
download-install path does, shown for contrast). -/
theorem import_zip_skips_unsafe_entry_cex :
    extract_zip [evilEntry] = [] ∧
    install_extract_entries [evilEntry] =
      .error (.unsafeParentDir evilEntry.path) := by decide

/-- Claim C2 as amended: on the download-install path every entry whose
stored path contains a parent-directory component or is absolute causes
the whole extraction to fail with a fatal error, and the paths written by
a successful extraction all stay below the destination; on the
archive-import path, unsafe zip entries are silently skipped rather than
rejected, but every path actually written also stays below the
destination (the tar variants of the import path delegate the same
containment to the tar library). -/
theorem archive_extraction_safety (entries : List ArchiveEntry) :
    (∀ e ∈ entries,
      (e.path.any is_parent_comp = true ∨ is_absolute e.path = true) →
      ∃ err, install_extract_entries entries = .error err) ∧
    (∀ ws, install_extract_entries entries = .ok ws →
      ∀ w ∈ ws, stays_within w = true) ∧
    (∀ w ∈ extract_zip entries, stays_within w = true) := by
  refine ⟨fun e hm hb => install_extract_unsafe_errors entries e hm hb, ?_,
    extract_zip_writes_safe entries⟩
  intro ws hok w hw
  rw [install_extract_ok entries ws hok] at hw
  obtain ⟨e, he, rfl⟩ := List.mem_map.mp hw
  exact stays_within_unpack e.path

/-- Witness for the amended C2: a well-formed entry extracts below the
destination on the install path, and the traversal entry forces an install
error. -/
theorem archive_extraction_safety_witness :
    install_extract_entries [goodEntry] =
      .ok [[PathComp.normal "bin", PathComp.normal "zrc"]] ∧
    stays_within [PathComp.normal "bin", PathComp.normal "zrc"] = true ∧
    (∃ err, install_extract_entries [evilEntry] = .error err) :=
  ⟨by decide,
   (archive_extraction_safety [goodEntry]).2.1
     [[PathComp.normal "bin", PathComp.normal "zrc"]] (by decide)
     [PathComp.normal "bin", PathComp.normal "zrc"] (by decide),
   (archive_extraction_safety [evilEntry]).1 evilEntry (by decide)
     (Or.inl (by decide))⟩

/-- Claim C7: checkout resolution follows the fixed precedence order — the
remote-tracking reference wins over everything, then generic short-name
resolution, then the literal object-id parse; a failing parse after both
misses yields the reference-not-found error; and when a name exists both
as a remote-tracking branch and as a (possibly stale) local branch, the
checked-out commit is always the one of the remote-tracking reference. -/
theorem checkout_ref_precedence (repo : Repo) (n : String) :
    (∀ r c, find_reference repo ("refs/remotes/origin/" ++ n) = some r →
      r.peelsTo = some c →
      checkout_ref repo n = .ok (c, .ref r.name)) ∧
    (∀ r c, find_reference repo ("refs/remotes/origin/" ++ n) = none →
      resolve_reference_from_short_name repo n = some r →
      r.peelsTo = some c →
      checkout_ref repo n = .ok (c, .ref r.name)) ∧
    (∀ oid, find_reference repo ("refs/remotes/origin/" ++ n) = none →
      resolve_reference_from_short_name repo n = none →
      oid_from_str n = some oid →
      oid ∈ repo.commits →
      checkout_ref repo n = .ok (oid, .detached oid)) ∧
    (find_reference repo ("refs/remotes/origin/" ++ n) = none →
      resolve_reference_from_short_name repo n = none →
      oid_from_str n = none →
      checkout_ref repo n = .error (.referenceNotFound n)) ∧
    (∀ r r2 c c2, find_reference repo ("refs/remotes/origin/" ++ n) = some r →
      r.peelsTo = some c →
      resolve_reference_from_short_name repo n = some r2 →
      r2.peelsTo = some c2 →
      (checkout_ref repo n).map Prod.fst = .ok c) := by
  refine ⟨?_, ?_, ?_, ?_, ?_⟩
  · intro r c h1 h2
    simp [checkout_ref, h1, h2]
  · intro r c h1 h2 h3
    simp [checkout_ref, h1, h2, h3]
  · intro oid h1 h2 h3 h4
    simp [checkout_ref, h1, h2, h3, h4]
  · intro h1 h2 h3
    simp [checkout_ref, h1, h2, h3]
  · intro r r2 c c2 h1 h2 h3 h4
    simp [checkout_ref, h1, h2, Except.map]

/-- Witness for C7 on the demo mirror: `main` exists both as the
remote-tracking branch (at `oid40a`) and as a stale local branch (at
`oid40b`); checkout resolves the remote-tracking commit. -/
theorem checkout_ref_precedence_witness :
    checkout_ref repoDemo "main" = .ok (oid40a, .ref "refs/remotes/origin/main") ∧
    (checkout_ref repoDemo "main").map Prod.fst = .ok oid40a ∧
    resolve_reference_from_short_name repoDemo "main" =
      some ⟨"refs/heads/main", some oid40b⟩ :=
  ⟨(checkout_ref_precedence repoDemo "main").1
      ⟨"refs/remotes/origin/main", some oid40a⟩ oid40a (by decide) rfl,
   (checkout_ref_precedence repoDemo "main").2.2.2.2
      ⟨"refs/remotes/origin/main", some oid40a⟩ ⟨"refs/heads/main", some oid40b⟩
      oid40a oid40b (by decide) rfl (by decide) rfl,
   by decide⟩

/-- Totality and shape of the classifier: it always returns, and the
payload is the reference name itself except in the commit case, where it
is the truncated name. -/
theorem determine_ref_type_shape (repo : Repo) (n : String) :
    determine_ref_type repo n = .tag n ∨ determine_ref_type repo n = .branch n ∨
      determine_ref_type repo n = .commit (take_chars n 8) := by
  unfold determine_ref_type
  by_cases h1 : (find_reference repo ("refs/tags/" ++ n)).isSome = true
  · simp [h1]
  · by_cases h2 : ((find_reference repo ("refs/heads/" ++ n)).isSome
        || (find_reference repo ("refs/remotes/origin/" ++ n)).isSome) = true
    · simp [h1, h2]
    · cases hoid : oid_from_str n with
      | some oid =>
        by_cases hmem : oid ∈ repo.commits
        · simp [h1, h2, hoid, hmem]
        · cases hres : resolve_reference_from_short_name repo n with
          | some r =>
            by_cases h4 : r.name.startsWith "refs/tags/" = true
            · simp [h1, h2, hoid, hmem, hres, h4]
            · simp [h1, h2, hoid, hmem, hres, h4]
          | none => simp [h1, h2, hoid, hmem, hres]
      | none =>
        cases hres : resolve_reference_from_short_name repo n with
        | some r =>
          by_cases h4 : r.name.startsWith "refs/tags/" = true
          · simp [h1, h2, hoid, hres, h4]
          · simp [h1, h2, hoid, hres, h4]
        | none => simp [h1, h2, hoid, hres]

/-- Claim C8: the classifier probes in the fixed order — tag reference
first (so a name that is simultaneously a tag and a hex object id is
classified as a tag), then local or remote-tracking branch, then object-id
parse resolving to an existing commit, then the short-name namespace
fallback, then the permissive branch default — and it is total, always
producing a tag, branch, or commit classification. -/
theorem determine_ref_type_order (repo : Repo) (n : String) :
    ((find_reference repo ("refs/tags/" ++ n)).isSome = true →
      determine_ref_type repo n = .tag n) ∧
    ((find_reference repo ("refs/tags/" ++ n)).isSome = false →
      ((find_reference repo ("refs/heads/" ++ n)).isSome = true ∨
       (find_reference repo ("refs/remotes/origin/" ++ n)).isSome = true) →
      determine_ref_type repo n = .branch n) ∧
    (∀ oid, (find_reference repo ("refs/tags/" ++ n)).isSome = false →
      (find_reference repo ("refs/heads/" ++ n)).isSome = false →
      (find_reference repo ("refs/remotes/origin/" ++ n)).isSome = false →
      oid_from_str n = some oid → oid ∈ repo.commits →
      determine_ref_type repo n = .commit (take_chars n 8)) ∧
    (∀ r, (find_reference repo ("refs/tags/" ++ n)).isSome = false →
      (find_reference repo ("refs/heads/" ++ n)).isSome = false →
      (find_reference repo ("refs/remotes/origin/" ++ n)).isSome = false →
      (∀ oid, oid_from_str n = some oid → oid ∉ repo.commits) →
      resolve_reference_from_short_name repo n = some r →
      (r.name.startsWith "refs/tags/" = true → determine_ref_type repo n = .tag n) ∧
      (r.name.startsWith "refs/tags/" = false →
        determine_ref_type repo n = .branch n)) ∧
    ((find_reference repo ("refs/tags/" ++ n)).isSome = false →
      (find_reference repo ("refs/heads/" ++ n)).isSome = false →
      (find_reference repo ("refs/remotes/origin/" ++ n)).isSome = false →
      (∀ oid, oid_from_str n = some oid → oid ∉ repo.commits) →
      resolve_reference_from_short_name repo n = none →
      determine_ref_type repo n = .branch n) ∧
    (determine_ref_type repo n = .tag n ∨ determine_ref_type repo n = .branch n ∨
      determine_ref_type repo n = .commit (take_chars n 8)) := by
  refine ⟨?_, ?_, ?_, ?_, ?_, determine_ref_type_shape repo n⟩
  · intro h1
    simp [determine_ref_type, h1]
  · intro h1 h2
    have h2b : ((find_reference repo ("refs/heads/" ++ n)).isSome
        || (find_reference repo ("refs/remotes/origin/" ++ n)).isSome) = true := by
      rcases h2 with h | h <;> simp [h]
    simp [determine_ref_type, h1, h2b]
  · intro oid h1 h2 h3 h4 h5
    simp [determine_ref_type, h1, h2, h3, h4, h5]
  · intro r h1 h2 h3 h4 h5
    constructor
    · intro h6
      cases hoid : oid_from_str n with
      | some oid => simp [determine_ref_type, h1, h2, h3, hoid, h4 oid hoid, h5, h6]
      | none => simp [determine_ref_type, h1, h2, h3, hoid, h5, h6]
    · intro h6
      cases hoid : oid_from_str n with
      | some oid => simp [determine_ref_type, h1, h2, h3, hoid, h4 oid hoid, h5, h6]
      | none => simp [determine_ref_type, h1, h2, h3, hoid, h5, h6]
  · intro h1 h2 h3 h4 h5
    cases hoid : oid_from_str n with
    | some oid => simp [determine_ref_type, h1, h2, h3, hoid, h4 oid hoid, h5]
    | none => simp [determine_ref_type, h1, h2, h3, hoid, h5]

/-- Witness for C8 on the demo mirror: the name `abcdef12` both names an
existing tag and parses as a hex object id; classification yields the
tag. -/
theorem determine_ref_type_order_witness :
    (oid_from_str "abcdef12").isSome = true ∧
    determine_ref_type repoDemo "abcdef12" = .tag "abcdef12" :=
  ⟨by decide, (determine_ref_type_order repoDemo "abcdef12").1 (by decide)⟩

/-- Tag classifications carry the reference name verbatim. -/
theorem ref_type_tag_payload (repo : Repo) (n t : String)
    (h : determine_ref_type repo n = .tag t) : t = n := by
  rcases determine_ref_type_shape repo n with hs | hs | hs
  · simpa using h.symm.trans hs
  · exact absurd (h.symm.trans hs) (by simp)
  · exact absurd (h.symm.trans hs) (by simp)

/-- Branch classifications carry the reference name verbatim. -/
theorem ref_type_branch_payload (repo : Repo) (n b : String)
    (h : determine_ref_type repo n = .branch b) : b = n := by
  rcases determine_ref_type_shape repo n with hs | hs | hs
  · exact absurd (h.symm.trans hs) (by simp)
  · simpa using h.symm.trans hs
  · exact absurd (h.symm.trans hs) (by simp)

/-- Commit classifications carry the truncated reference name. -/
theorem ref_type_commit_payload (repo : Repo) (n c : String)
    (h : determine_ref_type repo n = .commit c) :
    c = take_chars n 8 := by
  rcases determine_ref_type_shape repo n with hs | hs | hs
  · exact absurd (h.symm.trans hs) (by simp)
  · exact absurd (h.symm.trans hs) (by simp)
  · simpa using h.symm.trans hs

/-- Evaluation of the build version once the checkout and HEAD commit are
known. -/
theorem build_version_eq (repo : Repo) (r : String) (cObj : String) (hd : Head)
    (resolved : String)
    (hco : checkout_ref repo r = .ok (cObj, hd))
    (hpeel : head_peel repo hd = .ok resolved) :
    build_version repo r = .ok (match determine_ref_type repo r with
      | .tag t => t
      | .branch b => sanitize_branch b ++ "@" ++ take_chars resolved 8
      | .commit c => c) := by
  unfold build_version get_current_commit_short
  rw [hco]
  simp [Bind.bind, Except.bind, hpeel, Except.map, pure, Except.pure]

/-- Claim C9: the derived toolchain name is the tag text verbatim for a
tag; for a branch, the branch name with path separators replaced, an `@`,
and 8 characters that are a prefix of the commit hash HEAD resolves to
after checkout; and for a commit, the truncated reference text itself with
no prefix or suffix — for a full 40-character hash, exactly its
8-character prefix. -/
theorem build_version_naming (repo : Repo) (r cObj resolved : String) (hd : Head)
    (hco : checkout_ref repo r = .ok (cObj, hd))
    (hpeel : head_peel repo hd = .ok resolved)
    (hlen : 8 ≤ resolved.data.length) :
    (∀ t, determine_ref_type repo r = .tag t →
      t = r ∧ build_version repo r = .ok t) ∧
    (∀ b, determine_ref_type repo r = .branch b →
      b = r ∧
      build_version repo r = .ok (sanitize_branch b ++ "@" ++ take_chars resolved 8) ∧
      (take_chars resolved 8).data.length = 8 ∧
      (take_chars resolved 8).data <+: resolved.data) ∧
    (∀ c, determine_ref_type repo r = .commit c →
      c = take_chars r 8 ∧ build_version repo r = .ok c ∧
      (r.data.length = 40 →
        c = take_chars r 8 ∧ c.data.length = 8 ∧ c.data <+: r.data)) := by
  have hbv := build_version_eq repo r cObj hd resolved hco hpeel
  refine ⟨?_, ?_, ?_⟩
  · intro t h
    refine ⟨ref_type_tag_payload repo r t h, ?_⟩
    rw [hbv, h]
  · intro b h
    refine ⟨ref_type_branch_payload repo r b h, ?_, ?_, ?_⟩
    · rw [hbv, h]
    · show (resolved.data.take 8).length = 8
      rw [List.length_take]
      exact Nat.min_eq_left hlen
    · exact List.take_prefix 8 resolved.data
  · intro c h
    have hc := ref_type_commit_payload repo r c h
    refine ⟨hc, ?_, ?_⟩
    · rw [hbv, h]
    · intro h40
      refine ⟨hc, ?_, ?_⟩
      · rw [hc]
        show (r.data.take 8).length = 8
        rw [List.length_take]
        exact Nat.min_eq_left (by rw [h40]; norm_num)
      · rw [hc]
        exact List.take_prefix 8 r.data

/-- Witness for C9 on the demo mirror: building the tag `v1.0` yields the
tag text verbatim as the toolchain version. -/
theorem build_version_naming_witness :
    determine_ref_type repoDemo "v1.0" = .tag "v1.0" ∧
    build_version repoDemo "v1.0" = .ok "v1.0" :=
  ⟨by decide,
   ((build_version_naming repoDemo "v1.0" oid40c oid40c (.ref "refs/tags/v1.0")
      (by decide) (by decide) (by decide)).1 "v1.0" (by decide)).2⟩

end Zircon
